import Mathlib

/-!
Shallow embedding of the blog/portfolio web application
(`app.py`, `models.py`, `create_admin.py`): data model, admin access
control, slug derivation, featured-article sampling, comment listing,
article detail handler, and the login flow.

Strings are modelled as Lean `String`/`List Char`.  The Python regex
character classes `\w` and `\s` are modelled over ASCII
(`[A-Za-z0-9_]` and `[ \t\n\r\x0b\x0c]`), matching their effect on the
ASCII inputs the application handles.
-/

namespace Blog

/-- `\w` word character: ASCII alphanumeric or underscore. -/
def isWordChar (c : Char) : Bool :=
  ('a' ≤ c && c ≤ 'z') || ('A' ≤ c && c ≤ 'Z') || ('0' ≤ c && c ≤ '9') || c = '_'

/-- `\s` whitespace character (Python regex whitespace, ASCII part). -/
def isSpaceChar (c : Char) : Bool :=
  c = ' ' || c = '\t' || c = '\n' || c = '\r' || c = '\x0b' || c = '\x0c'

/-- ASCII lowercasing of one character, as Python `str.lower` acts on ASCII. -/
def lowerChar (c : Char) : Char :=
  if 'A' ≤ c && c ≤ 'Z' then Char.ofNat (c.toNat + 32) else c

/-- `re.sub(r"[^\w\s-]", "", ·)`: keep only word characters, whitespace and hyphens. -/
def keepWordSpaceHyphen (l : List Char) : List Char :=
  l.filter (fun c => isWordChar c || isSpaceChar c || c = '-')

/-- Python `str.strip()`: drop leading and trailing whitespace. -/
def stripList (l : List Char) : List Char :=
  ((l.dropWhile isSpaceChar).reverse.dropWhile isSpaceChar).reverse

/-- `re.sub(r"[-\s]+", "-", ·)` as a left-to-right scan: each maximal run of
hyphens/whitespace is replaced by a single hyphen (`inRun` records whether we
are inside such a run). -/
def collapseGo (inRun : Bool) : List Char → List Char
  | [] => []
  | c :: cs =>
    if isSpaceChar c || c = '-' then
      if inRun then collapseGo true cs else '-' :: collapseGo true cs
    else c :: collapseGo false cs

def collapseRuns (l : List Char) : List Char := collapseGo false l

/-- The slug derivation of `ArticleAdmin.on_model_change`:
`s = re.sub(r"[^\w\s-]", "", title).strip().lower()` followed by
`re.sub(r"[-\s]+", "-", s)`. -/
def slugifyList (l : List Char) : List Char :=
  collapseRuns ((stripList (keepWordSpaceHyphen l)).map lowerChar)

def slugify (title : String) : String :=
  ⟨slugifyList title.data⟩

/-- `ArticleAdmin.on_model_change`: if the model's slug is falsy (empty) and
the title is truthy (non-empty), replace the slug by the derived one. -/
def on_model_change (slug title : String) : String :=
  if slug = "" && title ≠ "" then slugify title else slug

/-! ## Data model (`models.py`) -/

/-- `Article` row: dates are modelled as naturals. -/
structure Article where
  id : Nat
  title : String
  slug : String
  tag : String
  summary : String
  image : String
  author : String := "Mauricio Aragon"
  published_on : Nat
  content : String
deriving DecidableEq, Repr

/-- `Comment` row; `created_at` is a timestamp modelled as a natural. -/
structure Comment where
  id : Nat
  article_id : Nat
  name : String
  content : String
  created_at : Nat
deriving DecidableEq, Repr

/-- `User` row; `is_admin` has column default `True`. -/
structure User where
  id : Nat
  email : String
  password_hash : String
  is_admin : Bool := true
deriving DecidableEq, Repr

/-- Flask-Login interface on `User`: `is_authenticated` is always `True`. -/
def User.is_authenticated (_ : User) : Bool := true

/-- Flask-Login interface on `User`: `is_anonymous` is always `False`. -/
def User.is_anonymous (_ : User) : Bool := false

/-! ## Admin access control (`SecureModelView`)

The session principal is `Option User`: `none` is an anonymous session
(Flask-Login's anonymous user, whose `is_authenticated` is `False`, so the
`and` in `is_accessible` short-circuits before touching `is_admin`). -/

/-- `SecureModelView.is_accessible`:
`current_user.is_authenticated and current_user.is_admin`. -/
def is_accessible : Option User → Bool
  | none => false
  | some u => u.is_authenticated && u.is_admin

/-- Outcome of a request to an admin-panel resource. -/
inductive AdminOutcome
  | resource
  | redirectLogin
  | forbidden
deriving DecidableEq, Repr

/-- Dispatch of one of the three model views registered through
`SecureModelView` (`ArticleAdmin(Article, ...)`, `SecureModelView(Comment, ...)`,
`SecureModelView(User, ...)`): Flask-Admin serves the resource when
`is_accessible` holds and otherwise calls `inaccessible_callback`, which is
`redirect(url_for("login"))`. -/
def admin_view (principal : Option User) : AdminOutcome :=
  if is_accessible principal then .resource else .redirectLogin

/-- Dispatch of the dashboard index at `/admin/`: `Admin(app, name="Admin",
template_mode="bootstrap4", url="/admin")` mounts Flask-Admin's stock
`AdminIndexView`, whose inherited `is_accessible` returns `True`
unconditionally, so the dashboard page is served to every requester —
anonymous and non-admin included. -/
def admin_index_view (_ : Option User) : AdminOutcome := .resource

/-- The `/admin/logout` route, gated only by `login_required`: an anonymous
request is redirected to the login view; any authenticated user — admin or
not — reaches it. -/
def admin_logout_route : Option User → AdminOutcome
  | none => .redirectLogin
  | some _ => .resource

/-! ## Home page (`index`)

`random.sample(all_articles, min(3, len(all_articles)))` draws a sample
without replacement; the random choice is modelled by quantifying over an
arbitrary reordering (`shuffled`, a permutation of the stored articles) and
taking its first `min 3 n` elements. -/

def featuredCount (articles : List Article) : Nat := min 3 articles.length

def featured_articles (shuffled : List Article) (articles : List Article) : List Article :=
  shuffled.take (featuredCount articles)

/-! ## Article detail (`article_detail`) and comment listing -/

/-- Insertion into a list kept in `created_at`-descending order. -/
def insertDesc (c : Comment) : List Comment → List Comment
  | [] => [c]
  | d :: ds => if d.created_at ≤ c.created_at then c :: d :: ds else d :: insertDesc c ds

/-- `order_by(Comment.created_at.desc())`: sort descending by `created_at`. -/
def sortDesc : List Comment → List Comment
  | [] => []
  | c :: cs => insertDesc c (sortDesc cs)

/-- `Comment.query.filter_by(article_id=aid).order_by(Comment.created_at.desc()).all()`. -/
def listComments (comments : List Comment) (aid : Nat) : List Comment :=
  sortDesc (comments.filter (fun c => c.article_id = aid))

/-- HTTP request to the detail endpoint: `GET`, or `POST` with form fields. -/
inductive DetailRequest
  | get
  | post (name content : String)
deriving DecidableEq, Repr

/-- HTTP-level outcome of `article_detail`. -/
inductive Response
  | detailPage (article : Article) (comments : List Comment)
  | redirect (target : String)
  | notFound
  | serverError
deriving DecidableEq, Repr

/-- `article_detail(slug)`; returns the response together with the comment
table after the request.  `first_or_404` aborts with 404 when no article has
the slug (the 404 handler renders the 404 page).  On POST a `Comment` row is
created (`newId` the id and `now` the `created_at` default assigned at
insert), committed, and the handler redirects back to the detail page.  On
GET the associated comments are listed newest-first. -/
def article_detail (articles : List Article) (comments : List Comment)
    (slug : String) (req : DetailRequest) (newId now : Nat) :
    Response × List Comment :=
  match articles.find? (fun a => a.slug = slug) with
  | none => (.notFound, comments)
  | some a =>
    match req with
    | .post name content =>
        (.redirect ("/articles/" ++ slug),
         comments ++ [{ id := newId, article_id := a.id, name := name,
                        content := content, created_at := now }])
    | .get => (.detailPage a (listComments comments a.id), comments)

/-! ## Admin persistence of articles

`slug` has a storage-level `unique=True` constraint: committing an article
whose slug collides with a stored one fails (the insert is rejected). -/

/-- Commit of a new article row under the unique-slug constraint. -/
def insertArticle (articles : List Article) (a : Article) : Option (List Article) :=
  if articles.any (fun b => b.slug = a.slug) then none else some (articles ++ [a])

/-- Flask-Admin scaffolds the Article create/edit form from the model
columns (`form_excluded_columns` removes only `comments`): every
non-nullable scalar column without a default — `title`, `slug`, `tag`,
`summary`, `image`, `content` — receives an `InputRequired` validator, so a
submission that leaves any of them empty fails validation before
`on_model_change` runs.  (`author` and `published_on` carry defaults and are
not required; `slug` uniqueness is additionally enforced, modelled at the
insert step.) -/
def article_form_validates (a : Article) : Bool :=
  a.title ≠ "" && a.slug ≠ "" && a.tag ≠ "" && a.summary ≠ "" &&
    a.image ≠ "" && a.content ≠ ""

/-- An admin-initiated create of an article: the scaffolded form validates
first (rejecting the submission when a required field such as `slug` is
empty, before any hook runs), then `on_model_change` runs, then the row is
committed under the unique-slug constraint. -/
def admin_submit_article (articles : List Article) (a : Article) :
    Option (List Article) :=
  if article_form_validates a then
    insertArticle articles { a with slug := on_model_change a.slug a.title }
  else none

/-! ## Login (`login`) -/

/-- Outcome of a request to `/admin/login`. -/
inductive LoginResponse
  | redirectAdmin
  | invalidCredentials
  | renderForm
deriving DecidableEq, Repr

/-- `u.check_password(pw)` delegates to `werkzeug.check_password_hash`;
the hash verifier is an abstract parameter `checkHash`. -/
def check_password (checkHash : String → String → Bool) (u : User) (pw : String) : Bool :=
  checkHash u.password_hash pw

/-- `login`: an authenticated requester is redirected straight to the admin
dashboard.  Otherwise, on a validated submission (`submitted` with both
`DataRequired` fields non-empty), the user is looked up by the stripped
email; a hash match logs the user in and redirects to the dashboard, and any
failure re-renders the form with the generic "Invalid credentials" error.
Returns the response and the session principal afterwards. -/
def login (checkHash : String → String → Bool) (users : List User)
    (session : Option User) (submitted : Bool) (email pw : String) :
    LoginResponse × Option User :=
  match session with
  | some u => (.redirectAdmin, some u)
  | none =>
    if submitted && email ≠ "" && pw ≠ "" then
      match users.find? (fun u => u.email = ⟨stripList email.data⟩) with
      | some u =>
          if check_password checkHash u pw then (.redirectAdmin, some u)
          else (.invalidCredentials, none)
      | none => (.invalidCredentials, none)
    else (.renderForm, none)

/-! ## Admin image preview (`ArticleAdmin._image_preview`) -/

/-- What the preview column renders as the `<img>` source. -/
inductive PreviewSrc
  | empty
  | verbatim (src : String)
  | staticPath (path : String)
deriving DecidableEq, Repr

/-- `_image_preview`: an empty stored value renders nothing; a value starting
with `"http"` is used verbatim as the image source; anything else is resolved
through `url_for("static", filename=src)`. -/
def image_preview (image : String) : PreviewSrc :=
  if image = "" then .empty
  else if image.startsWith "http" then .verbatim image
  else .staticPath image

/-! ## Slug character classes and run structure -/

/-- Characters that can appear in a derived slug: word characters that are
not uppercase ASCII letters, and hyphens. -/
def isSlugChar (c : Char) : Bool :=
  (isWordChar c && !('A' ≤ c && c ≤ 'Z')) || c = '-'

/-- No two adjacent hyphens. -/
def noDoubleHyphen : List Char → Bool
  | c :: d :: cs => !(c = '-' && d = '-') && noDoubleHyphen (d :: cs)
  | _ => true

/-- A string made of lowercase word characters and single (non-adjacent)
hyphens only. -/
def isValidSlug (s : String) : Bool :=
  s.data.all isSlugChar && noDoubleHyphen s.data

lemma noDoubleHyphen_cons (a : Char) (l : List Char) :
    noDoubleHyphen (a :: l) =
      (!(a = '-' && l.head? = some '-') && noDoubleHyphen l) := by
  cases l with
  | nil => simp [noDoubleHyphen]
  | cons b bs => simp [noDoubleHyphen]

lemma isSpaceChar_elim {c : Char} (h : isSpaceChar c = true) :
    c = ' ' ∨ c = '\t' ∨ c = '\n' ∨ c = '\r' ∨ c = '\x0b' ∨ c = '\x0c' := by
  have h' := h
  simp only [isSpaceChar, Bool.or_eq_true, decide_eq_true_eq] at h'
  tauto

lemma isWordChar_not_space {c : Char} (h : isWordChar c = true) :
    isSpaceChar c = false := by
  cases hs : isSpaceChar c with
  | false => rfl
  | true =>
    rcases isSpaceChar_elim hs with h1 | h1 | h1 | h1 | h1 | h1 <;>
      (subst h1; exact absurd h (by decide))

lemma lowerChar_eq_self {c : Char} (h : ('A' ≤ c && c ≤ 'Z') = false) :
    lowerChar c = c := by
  simp [lowerChar, h]

lemma lowerChar_of_upper {c : Char} (h : ('A' ≤ c && c ≤ 'Z') = true) :
    isSlugChar (lowerChar c) = true ∧ isSpaceChar (lowerChar c) = false := by
  rw [Bool.and_eq_true, decide_eq_true_eq, decide_eq_true_eq] at h
  obtain ⟨h1, h2⟩ := h
  rw [Char.le_def] at h1 h2
  have h1n : 65 ≤ c.toNat := h1
  have h2n : c.toNat ≤ 90 := h2
  have hc : Char.ofNat c.toNat = c := Char.ofNat_toNat c
  rw [← hc]
  set n := c.toNat with hn
  interval_cases n <;> decide

lemma lowerChar_charset {c : Char}
    (h : (isWordChar c || isSpaceChar c || c = '-') = true) :
    (isSlugChar (lowerChar c) || isSpaceChar (lowerChar c)) = true := by
  cases hu : ('A' ≤ c && c ≤ 'Z') with
  | true =>
    have := lowerChar_of_upper hu
    simp [this.1]
  | false =>
    rw [lowerChar_eq_self hu]
    rcases Bool.or_eq_true_iff.mp h with h1 | h1
    · rcases Bool.or_eq_true_iff.mp h1 with h2 | h2
      · simp [isSlugChar, h2, hu]
      · simp [h2]
    · simp [isSlugChar, h1]

lemma all_dropWhile {α} (p q : α → Bool) (l : List α) (h : l.all q = true) :
    (l.dropWhile p).all q = true := by
  induction l with
  | nil => simp
  | cons x xs ih =>
    simp only [List.all_cons, Bool.and_eq_true] at h
    rw [List.dropWhile_cons]
    split
    · exact ih h.2
    · rw [List.all_cons, Bool.and_eq_true]
      exact ⟨h.1, h.2⟩

lemma all_stripList (q : Char → Bool) (l : List Char) (h : l.all q = true) :
    (stripList l).all q = true := by
  unfold stripList
  rw [List.all_reverse]
  apply all_dropWhile
  rw [List.all_reverse]
  exact all_dropWhile _ _ _ h

lemma keep_charset (l : List Char) :
    (keepWordSpaceHyphen l).all
      (fun c => isWordChar c || isSpaceChar c || c = '-') = true := by
  simp only [keepWordSpaceHyphen, List.all_eq_true, List.mem_filter]
  intro a ha
  exact ha.2

lemma all_map_lower (l : List Char)
    (h : l.all (fun c => isWordChar c || isSpaceChar c || c = '-') = true) :
    (l.map lowerChar).all (fun c => isSlugChar c || isSpaceChar c) = true := by
  simp only [List.all_eq_true, List.mem_map] at h ⊢
  rintro d ⟨c, hc, rfl⟩
  exact lowerChar_charset (h c hc)

lemma collapseGo_charset (l : List Char)
    (hl : l.all (fun c => isSlugChar c || isSpaceChar c) = true) :
    ((collapseGo false l).all isSlugChar = true ∧
      noDoubleHyphen (collapseGo false l) = true) ∧
    ((collapseGo true l).all isSlugChar = true ∧
      noDoubleHyphen (collapseGo true l) = true ∧
      (collapseGo true l).head? ≠ some '-') := by
  induction l with
  | nil => simp [collapseGo, noDoubleHyphen]
  | cons c cs ih =>
    simp only [List.all_cons, Bool.and_eq_true] at hl
    obtain ⟨hc, hcs⟩ := hl
    obtain ⟨⟨ihf_all, ihf_ndh⟩, iht_all, iht_ndh, iht_hd⟩ := ih hcs
    by_cases hrun : (isSpaceChar c || c = '-') = true
    · have hf : collapseGo false (c :: cs) = '-' :: collapseGo true cs := by
        simp [collapseGo, hrun]
      have ht : collapseGo true (c :: cs) = collapseGo true cs := by
        simp [collapseGo, hrun]
      refine ⟨⟨?_, ?_⟩, ?_⟩
      · rw [hf, List.all_cons, Bool.and_eq_true]
        exact ⟨by decide, iht_all⟩
      · rw [hf, noDoubleHyphen_cons]
        simp only [Bool.and_eq_true, Bool.not_eq_true']
        refine ⟨?_, iht_ndh⟩
        simp only [Bool.and_eq_false_iff]
        right
        simpa using iht_hd
      · rw [ht]; exact ⟨iht_all, iht_ndh, iht_hd⟩
    · have hrun' : (isSpaceChar c || c = '-') = false := by
        simpa using hrun
      have hcd : (c = '-') = False := by
        simp only [Bool.or_eq_false_iff, decide_eq_false_iff_not] at hrun'
        simp [hrun'.2]
      have hslug : isSlugChar c = true := by
        rcases Bool.or_eq_true_iff.mp hc with h1 | h1
        · exact h1
        · rw [Bool.or_eq_false_iff] at hrun'
          rw [hrun'.1] at h1
          exact absurd h1 (by simp)
      have hf : collapseGo false (c :: cs) = c :: collapseGo false cs := by
        simp [collapseGo, hrun']
      have ht : collapseGo true (c :: cs) = c :: collapseGo false cs := by
        simp [collapseGo, hrun']
      have hall : (c :: collapseGo false cs).all isSlugChar = true := by
        rw [List.all_cons, Bool.and_eq_true]
        exact ⟨hslug, ihf_all⟩
      have hndh : noDoubleHyphen (c :: collapseGo false cs) = true := by
        rw [noDoubleHyphen_cons]
        simp only [Bool.and_eq_true, Bool.not_eq_true']
        refine ⟨?_, ihf_ndh⟩
        simp [hcd]
      refine ⟨⟨?_, ?_⟩, ?_, ?_, ?_⟩
      · rw [hf]; exact hall
      · rw [hf]; exact hndh
      · rw [ht]; exact hall
      · rw [ht]; exact hndh
      · rw [ht]; simp [hcd]

lemma and_true_left {a b : Bool} (h : (a && b) = true) : a = true := by
  cases a <;> simp_all

lemma and_true_right {a b : Bool} (h : (a && b) = true) : b = true := by
  cases a <;> simp_all

lemma collapseGo_fixed (l : List Char) (hall : l.all isSlugChar = true)
    (hndh : noDoubleHyphen l = true) :
    collapseGo false l = l ∧ (l.head? ≠ some '-' → collapseGo true l = l) := by
  induction l with
  | nil => simp [collapseGo]
  | cons c cs ih =>
    simp only [List.all_cons, Bool.and_eq_true] at hall
    obtain ⟨hc, hcs⟩ := hall
    rw [noDoubleHyphen_cons] at hndh
    simp only [Bool.and_eq_true, Bool.not_eq_true', Bool.and_eq_false_iff,
      decide_eq_false_iff_not] at hndh
    obtain ⟨hpair, hndhcs⟩ := hndh
    obtain ⟨ihf, iht⟩ := ih hcs hndhcs
    by_cases hdash : c = '-'
    · subst hdash
      have hhd : cs.head? ≠ some '-' := by
        rcases hpair with h1 | h1
        · exact absurd rfl h1
        · simpa using h1
      refine ⟨?_, ?_⟩
      · rw [show collapseGo false ('-' :: cs) = '-' :: collapseGo true cs from by
          simp [collapseGo, isSpaceChar]]
        rw [iht hhd]
      · intro hcon
        exact absurd rfl hcon
    · have hslug : isWordChar c = true := by
        rcases Bool.or_eq_true_iff.mp hc with h1 | h1
        · exact and_true_left h1
        · rw [decide_eq_true_eq] at h1
          exact absurd h1 hdash
      have hs : isSpaceChar c = false := isWordChar_not_space hslug
      have hrun : (isSpaceChar c || c = '-') = false := by
        simp [hs, hdash]
      refine ⟨?_, fun _ => ?_⟩ <;>
        · simp only [collapseGo, hrun, Bool.false_eq_true, if_false]
          rw [ihf]

lemma dropWhile_eq_self_of (p : Char → Bool) (l : List Char)
    (h : ∀ a ∈ l, p a = false) : l.dropWhile p = l := by
  cases l with
  | nil => rfl
  | cons x xs =>
    rw [List.dropWhile_cons, h x (by simp)]
    simp

lemma map_eq_self_of {α} (f : α → α) (l : List α) (h : ∀ a ∈ l, f a = a) :
    l.map f = l := by
  induction l with
  | nil => rfl
  | cons x xs ih =>
    rw [List.map_cons, h x (by simp), ih (fun a ha => h a (by simp [ha]))]

lemma isSlugChar_not_space {c : Char} (h : isSlugChar c = true) :
    isSpaceChar c = false := by
  rcases Bool.or_eq_true_iff.mp h with h1 | h1
  · exact isWordChar_not_space (and_true_left h1)
  · rw [decide_eq_true_eq] at h1
    subst h1
    decide

lemma isSlugChar_not_upper {c : Char} (h : isSlugChar c = true) :
    ('A' ≤ c && c ≤ 'Z') = false := by
  rcases Bool.or_eq_true_iff.mp h with h1 | h1
  · have h2 := and_true_right h1
    rwa [Bool.not_eq_true'] at h2
  · rw [decide_eq_true_eq] at h1
    subst h1
    decide

/-- The derived slug consists of slug characters with no adjacent hyphens. -/
lemma slugifyList_charset (l : List Char) :
    (slugifyList l).all isSlugChar = true ∧
    noDoubleHyphen (slugifyList l) = true := by
  have h1 := keep_charset l
  have h2 := all_stripList _ _ h1
  have h3 := all_map_lower _ h2
  exact (collapseGo_charset _ h3).1

/-- Slug derivation is the identity on lists that are already in slug form. -/
lemma slugifyList_fixed (l : List Char) (hall : l.all isSlugChar = true)
    (hndh : noDoubleHyphen l = true) : slugifyList l = l := by
  have hmem : ∀ a ∈ l, isSlugChar a = true := List.all_eq_true.mp hall
  have hkeep : keepWordSpaceHyphen l = l := by
    apply List.filter_eq_self.mpr
    intro a ha
    rcases Bool.or_eq_true_iff.mp (hmem a ha) with h1 | h1
    · have := and_true_left h1
      simp [this]
    · simp [h1]
  have hnospace : ∀ a ∈ l, isSpaceChar a = false :=
    fun a ha => isSlugChar_not_space (hmem a ha)
  have hstrip : stripList l = l := by
    unfold stripList
    rw [dropWhile_eq_self_of _ _ hnospace,
        dropWhile_eq_self_of _ _ (fun a ha => hnospace a (List.mem_reverse.mp ha)),
        List.reverse_reverse]
  have hlower : l.map lowerChar = l := by
    apply map_eq_self_of
    intro a ha
    exact lowerChar_eq_self (isSlugChar_not_upper (hmem a ha))
  unfold slugifyList collapseRuns
  rw [hkeep, hstrip, hlower]
  exact (collapseGo_fixed l hall hndh).1

/-! ## Helper lemmas: insertion sort by `created_at` descending -/

lemma perm_insertDesc (c : Comment) (l : List Comment) :
    (insertDesc c l).Perm (c :: l) := by
  induction l with
  | nil => exact List.Perm.refl _
  | cons d ds ih =>
    unfold insertDesc
    split
    · exact List.Perm.refl _
    · exact (ih.cons d).trans (List.Perm.swap c d ds)

lemma perm_sortDesc (l : List Comment) : (sortDesc l).Perm l := by
  induction l with
  | nil => exact List.Perm.refl _
  | cons c cs ih => exact (perm_insertDesc c _).trans (ih.cons c)

lemma pairwise_insertDesc (c : Comment) (l : List Comment)
    (h : l.Pairwise (fun x y => y.created_at ≤ x.created_at)) :
    (insertDesc c l).Pairwise (fun x y => y.created_at ≤ x.created_at) := by
  induction l with
  | nil => simp [insertDesc]
  | cons d ds ih =>
    rw [List.pairwise_cons] at h
    obtain ⟨hd, hds⟩ := h
    unfold insertDesc
    split
    · next hle =>
      rw [List.pairwise_cons]
      refine ⟨?_, ?_⟩
      · intro x hx
        rcases List.mem_cons.mp hx with rfl | hmem
        · exact hle
        · exact le_trans (hd x hmem) hle
      · rw [List.pairwise_cons]
        exact ⟨hd, hds⟩
    · next hgt =>
      push_neg at hgt
      rw [List.pairwise_cons]
      refine ⟨?_, ih hds⟩
      intro x hx
      rcases List.mem_cons.mp ((perm_insertDesc c ds).mem_iff.mp hx) with rfl | hmem
      · exact le_of_lt hgt
      · exact hd x hmem

lemma pairwise_sortDesc (l : List Comment) :
    (sortDesc l).Pairwise (fun x y => y.created_at ≤ x.created_at) := by
  induction l with
  | nil => simp [sortDesc]
  | cons c cs ih => exact pairwise_insertDesc c _ ih

lemma sortDesc_head_fresh (l : List Comment) (x : Comment)
    (hx : ∀ c ∈ l, c.created_at < x.created_at) :
    (sortDesc (l ++ [x])).head? = some x := by
  have hperm := perm_sortDesc (l ++ [x])
  have hpw := pairwise_sortDesc (l ++ [x])
  have hxmem : x ∈ sortDesc (l ++ [x]) := hperm.mem_iff.mpr (by simp)
  cases hsd : sortDesc (l ++ [x]) with
  | nil => rw [hsd] at hxmem; cases hxmem
  | cons h t =>
    rw [hsd] at hxmem hpw hperm
    rcases List.mem_cons.mp hxmem with rfl | hxt
    · rfl
    · rw [List.pairwise_cons] at hpw
      have hle : x.created_at ≤ h.created_at := hpw.1 x hxt
      have hmem_h : h ∈ l ++ [x] := hperm.subset (by simp)
      rcases List.mem_append.mp hmem_h with hl | hx1

      · have := hx h hl
        omega
      · simp only [List.mem_singleton] at hx1
        subst hx1
        rfl

/-! ## Sample data for concrete instantiations -/

def artA : Article :=
  { id := 1, title := "Hello, World!", slug := "hello-world", tag := "intro",
    summary := "greeting", image := "img.png", published_on := 10, content := "body" }

def artB : Article :=
  { id := 2, title := "Second Post", slug := "second-post", tag := "misc",
    summary := "more", image := "https://cdn.example.com/p.png",
    published_on := 11, content := "body2" }

def comA : Comment :=
  { id := 1, article_id := 1, name := "Bob", content := "First", created_at := 5 }

def userU : User :=
  { id := 7, email := "admin@example.com", password_hash := "pbkdf2hash" }

/-! ## Theorems for the specification claims -/

/-- C1 counterexample: an anonymous request to the dashboard index at
`/admin/` is served the page rather than redirected to login, and an
authenticated non-admin reaches `/admin/logout` — so the claim that every
resource under `/admin/*` redirects such requesters is false of the
program. -/
theorem admin_index_ungated_counterexample :
    admin_index_view none = .resource ∧
    admin_index_view (some { userU with is_admin := false }) = .resource ∧
    admin_logout_route (some { userU with is_admin := false }) = .resource ∧
    AdminOutcome.resource ≠ AdminOutcome.redirectLogin := by decide

/-- C1 amended: each of the three model-view panels (Article, Comment,
User) redirects an unauthenticated or non-admin requester to the admin
login page, only a principal with a valid session and `is_admin = true`
reaches them, and the failing case never produces a 403; the stock
dashboard index at `/admin/` is however served to every requester, and
`/admin/logout` requires only authentication (any logged-in user, admin or
not, reaches it; an anonymous request is redirected to login). -/
theorem admin_access_amended (p : Option User) :
    admin_view p ≠ .forbidden ∧
    (admin_view p = .resource ↔
      ∃ u, p = some u ∧ u.is_authenticated = true ∧ u.is_admin = true) ∧
    ((p = none ∨ ∃ u, p = some u ∧ u.is_admin = false) →
      admin_view p = .redirectLogin) ∧
    admin_index_view p = .resource ∧
    (admin_logout_route p = .redirectLogin ↔ p = none) := by
  cases p with
  | none => simp [admin_view, is_accessible, admin_index_view, admin_logout_route]
  | some u =>
    cases hadm : u.is_admin with
    | true =>
      simp [admin_view, is_accessible, User.is_authenticated, hadm,
        admin_index_view, admin_logout_route]
    | false =>
      simp [admin_view, is_accessible, User.is_authenticated, hadm,
        admin_index_view, admin_logout_route]

theorem admin_access_amended_witness :
    admin_view none = .redirectLogin ∧
    admin_view (some userU) = .resource ∧
    admin_view (some { userU with is_admin := false }) = .redirectLogin ∧
    admin_index_view none = .resource ∧
    admin_logout_route none = .redirectLogin := by
  refine ⟨(admin_access_amended none).2.2.1 (Or.inl rfl), ?_, ?_, ?_, ?_⟩
  · exact (admin_access_amended (some userU)).2.1.mpr ⟨userU, rfl, rfl, rfl⟩
  · exact (admin_access_amended _).2.2.1 (Or.inr ⟨_, rfl, rfl⟩)
  · exact (admin_access_amended none).2.2.2.1
  · exact (admin_access_amended none).2.2.2.2.mpr rfl

/-- C2: the claim says an admin create with title "Hello, World!" and no
slug persists the slug "hello-world", but the scaffolded form's
`InputRequired` validator on the non-nullable, default-less `slug` column
rejects the submission before `on_model_change` runs, so nothing is
persisted — even though the derivation hook would have produced exactly
"hello-world". -/
theorem article_create_blocked :
    admin_submit_article []
      { id := 1, title := "Hello, World!", slug := "", tag := "intro",
        summary := "greeting", image := "img.png", published_on := 10,
        content := "body" } = none ∧
    on_model_change "" "Hello, World!" = "hello-world" := by decide

/-- C9: for a non-empty stored image value the admin preview uses the value
verbatim as image source exactly when it starts with the URL scheme marker
"http", and otherwise resolves it against the static-asset root; an empty
value renders nothing. -/
theorem image_preview_spec (image : String) (h : image ≠ "") :
    (image_preview image = .verbatim image ↔ image.startsWith "http" = true) ∧
    (image.startsWith "http" = false → image_preview image = .staticPath image) ∧
    image_preview "" = .empty := by
  refine ⟨?_, ?_, by decide⟩
  · unfold image_preview
    rw [if_neg h]
    by_cases hs : image.startsWith "http" = true
    · simp [hs]
    · simp only [Bool.not_eq_true] at hs
      simp [hs]
  · intro hs
    unfold image_preview
    rw [if_neg h, if_neg (by simp [hs])]

theorem image_preview_spec_witness :
    ("pic.png" : String) ≠ "" ∧
    ((image_preview "pic.png" = .verbatim "pic.png" ↔
        ("pic.png" : String).startsWith "http" = true) ∧
     (("pic.png" : String).startsWith "http" = false →
        image_preview "pic.png" = .staticPath "pic.png") ∧
     image_preview "" = .empty) :=
  ⟨by decide, image_preview_spec "pic.png" (by decide)⟩

/-- C10: a `User` created without specifying `is_admin` gets the column
default `True`; every `User` reports `is_authenticated = true` and
`is_anonymous = false`; hence such a user, once logged in, passes the
admin-access predicate and reaches the admin panel. -/
theorem user_default_is_admin (i : Nat) (e ph : String) :
    ({ id := i, email := e, password_hash := ph } : User).is_admin = true ∧
    ({ id := i, email := e, password_hash := ph } : User).is_authenticated = true ∧
    ({ id := i, email := e, password_hash := ph } : User).is_anonymous = false ∧
    is_accessible (some { id := i, email := e, password_hash := ph }) = true ∧
    admin_view (some { id := i, email := e, password_hash := ph }) = .resource :=
  ⟨rfl, rfl, rfl, rfl, rfl⟩

/-- C3: for every stored article set and every possible outcome of the
random draw (modelled as an arbitrary permutation of the article table),
the featured selection has size exactly `min 3 n`, never exceeds 3, is
drawn from the full article set without replacement (no stored article is
repeated), and contains all articles when fewer than 3 exist. -/
theorem featured_articles_spec (articles shuffled : List Article)
    (hperm : shuffled.Perm articles) :
    (featured_articles shuffled articles).length = min 3 articles.length ∧
    (featured_articles shuffled articles).length ≤ 3 ∧
    (∀ a ∈ featured_articles shuffled articles, a ∈ articles) ∧
    (articles.Nodup → (featured_articles shuffled articles).Nodup) ∧
    (articles.length < 3 → (featured_articles shuffled articles).Perm articles) := by
  have hlen : shuffled.length = articles.length := hperm.length_eq
  unfold featured_articles featuredCount
  refine ⟨?_, ?_, ?_, ?_, ?_⟩
  · rw [List.length_take, hlen]
    omega
  · rw [List.length_take]
    omega
  · intro a ha
    exact hperm.subset (List.take_subset _ _ ha)
  · intro hnd
    exact (List.take_sublist _ _).nodup (hperm.nodup_iff.mpr hnd)
  · intro h3
    have hmin : min 3 articles.length = articles.length := by omega
    rw [hmin, ← hlen, List.take_length]
    exact hperm

theorem featured_articles_spec_witness :
    ([artB, artA] : List Article).Perm [artA, artB] ∧
    ((featured_articles [artB, artA] [artA, artB]).length =
        min 3 ([artA, artB] : List Article).length ∧
     (featured_articles [artB, artA] [artA, artB]).length ≤ 3 ∧
     (∀ a ∈ featured_articles [artB, artA] [artA, artB], a ∈ [artA, artB]) ∧
     (([artA, artB] : List Article).Nodup →
        (featured_articles [artB, artA] [artA, artB]).Nodup) ∧
     (([artA, artB] : List Article).length < 3 →
        (featured_articles [artB, artA] [artA, artB]).Perm [artA, artB])) :=
  ⟨by decide, featured_articles_spec [artA, artB] [artB, artA] (by decide)⟩

/-- C5: a request (GET or POST) to the detail endpoint for a slug matching
no stored article returns NotFound — never a server error — and leaves the
comment table unchanged (no comment is created). -/
theorem article_detail_not_found (articles : List Article)
    (comments : List Comment) (slug : String) (req : DetailRequest)
    (newId now : Nat) (h : ∀ a ∈ articles, a.slug ≠ slug) :
    article_detail articles comments slug req newId now = (.notFound, comments) ∧
    (article_detail articles comments slug req newId now).1 ≠ .serverError := by
  have hfind : articles.find? (fun a => a.slug = slug) = none := by
    rw [List.find?_eq_none]
    intro a ha
    simp [h a ha]
  have hmain : article_detail articles comments slug req newId now = (.notFound, comments) := by
    unfold article_detail
    rw [hfind]
  refine ⟨hmain, ?_⟩
  rw [hmain]
  simp

theorem article_detail_not_found_witness :
    (∀ a ∈ ([artA, artB] : List Article), a.slug ≠ "no-such-post") ∧
    (article_detail [artA, artB] [comA] "no-such-post" .get 9 99 =
        (.notFound, [comA]) ∧
     (article_detail [artA, artB] [comA] "no-such-post" .get 9 99).1 ≠ .serverError) :=
  ⟨by decide, article_detail_not_found [artA, artB] [comA] "no-such-post" .get 9 99 (by decide)⟩

/-- C6 counterexample: after a failed login attempt the session is still
anonymous, yet a subsequent request to `/admin` (the stock dashboard
index) is served the page rather than redirected to login — the claim's
"subsequent /admin request still redirects to login" conjunct is false of
the program. -/
theorem login_subsequent_admin_counterexample :
    (login (fun _ _ => false) [userU] none true "admin@example.com" "wrongpass").2
      = none ∧
    admin_index_view
      (login (fun _ _ => false) [userU] none true "admin@example.com" "wrongpass").2
      = .resource ∧
    AdminOutcome.resource ≠ AdminOutcome.redirectLogin := by decide

/-- C6 amended: when no user matches the stripped email or the password
hash check fails, `login` re-renders the form with the generic "Invalid
credentials" outcome (never revealing which field was wrong) and
establishes no session principal; a subsequent request to any of the gated
admin model views still redirects to login, though the ungated dashboard
index at `/admin/` is served even to the anonymous session; an
already-authenticated requester is short-circuited straight to the admin
dashboard. -/
theorem login_invalid_credentials_amended (checkHash : String → String → Bool)
    (users : List User) (email pw : String)
    (hemail : email ≠ "") (hpw : pw ≠ "")
    (hfail : ∀ u ∈ users, u.email = (⟨stripList email.data⟩ : String) →
      checkHash u.password_hash pw = false) :
    login checkHash users none true email pw = (.invalidCredentials, none) ∧
    admin_view (login checkHash users none true email pw).2 = .redirectLogin ∧
    admin_index_view (login checkHash users none true email pw).2 = .resource ∧
    (∀ u : User, login checkHash users (some u) true email pw = (.redirectAdmin, some u)) := by
  have hmain : login checkHash users none true email pw = (.invalidCredentials, none) := by
    unfold login
    rw [if_pos (by simp [hemail, hpw])]
    cases hfind : users.find? (fun u => u.email = (⟨stripList email.data⟩ : String)) with
    | none => rfl
    | some u =>
      have hu : u ∈ users := List.mem_of_find?_eq_some hfind
      have hp := List.find?_some hfind
      rw [decide_eq_true_eq] at hp
      simp [check_password, hfail u hu hp]
  exact ⟨hmain, by rw [hmain]; rfl, by rw [hmain]; rfl, fun u => rfl⟩

theorem login_invalid_credentials_amended_witness :
    (" admin@example.com " : String) ≠ "" ∧ ("wrongpass" : String) ≠ "" ∧
    (∀ u ∈ [userU], u.email = (⟨stripList (" admin@example.com " : String).data⟩ : String) →
      (fun _ _ => false : String → String → Bool) u.password_hash "wrongpass" = false) ∧
    (login (fun _ _ => false) [userU] none true " admin@example.com " "wrongpass" =
        (.invalidCredentials, none) ∧
     admin_view (login (fun _ _ => false) [userU] none true " admin@example.com " "wrongpass").2 =
        .redirectLogin ∧
     admin_index_view (login (fun _ _ => false) [userU] none true " admin@example.com " "wrongpass").2 =
        .resource ∧
     (∀ u : User, login (fun _ _ => false) [userU] (some u) true " admin@example.com " "wrongpass" =
        (.redirectAdmin, some u))) :=
  ⟨by decide, by decide, fun _ _ _ => rfl,
    login_invalid_credentials_amended (fun _ _ => false) [userU] " admin@example.com " "wrongpass"
      (by decide) (by decide) (fun _ _ _ => rfl)⟩

/-- C4: the comment list rendered by the article detail page is ordered by
`created_at` descending (every later element has a `created_at` no larger
than any earlier one) and lists exactly the article's comments; after a
POST of a new comment whose `created_at` is later than all existing ones,
re-fetching the page shows the new comment first. -/
theorem comment_listing_order (articles : List Article) (comments : List Comment)
    (slug : String) (a : Article) (newId now : Nat) (name content : String)
    (hfind : articles.find? (fun b => b.slug = slug) = some a)
    (hfresh : ∀ c ∈ comments, c.article_id = a.id → c.created_at < now) :
    article_detail articles comments slug .get newId now =
      (.detailPage a (listComments comments a.id), comments) ∧
    (listComments comments a.id).Pairwise
      (fun x y => y.created_at ≤ x.created_at) ∧
    (listComments comments a.id).Perm
      (comments.filter (fun c => c.article_id = a.id)) ∧
    (article_detail articles comments slug (.post name content) newId now).1 =
      .redirect ("/articles/" ++ slug) ∧
    (listComments
        (article_detail articles comments slug (.post name content) newId now).2
        a.id).head? =
      some { id := newId, article_id := a.id, name := name,
             content := content, created_at := now } := by
  have hget : article_detail articles comments slug .get newId now =
      (.detailPage a (listComments comments a.id), comments) := by
    unfold article_detail
    rw [hfind]
  have hpost : article_detail articles comments slug (.post name content) newId now =
      (.redirect ("/articles/" ++ slug),
       comments ++ [{ id := newId, article_id := a.id, name := name,
                      content := content, created_at := now }]) := by
    unfold article_detail
    rw [hfind]
  refine ⟨hget, pairwise_sortDesc _, perm_sortDesc _, by rw [hpost], ?_⟩
  rw [hpost]
  unfold listComments
  rw [List.filter_append,
      show [({ id := newId, article_id := a.id, name := name, content := content,
               created_at := now } : Comment)].filter (fun c => c.article_id = a.id) =
        [{ id := newId, article_id := a.id, name := name, content := content,
           created_at := now }] from by simp]
  apply sortDesc_head_fresh
  intro c hc
  rw [List.mem_filter] at hc
  exact hfresh c hc.1 (by simpa using hc.2)

theorem comment_listing_order_witness :
    ([artA] : List Article).find? (fun b => b.slug = "hello-world") = some artA ∧
    (∀ c ∈ [comA], c.article_id = artA.id → c.created_at < 99) ∧
    (article_detail [artA] [comA] "hello-world" .get 2 99 =
        (.detailPage artA (listComments [comA] artA.id), [comA]) ∧
     (listComments [comA] artA.id).Pairwise
        (fun x y => y.created_at ≤ x.created_at) ∧
     (listComments [comA] artA.id).Perm
        ([comA].filter (fun c => c.article_id = artA.id)) ∧
     (article_detail [artA] [comA] "hello-world" (.post "Ana" "Nice post") 2 99).1 =
        .redirect ("/articles/" ++ "hello-world") ∧
     (listComments
         (article_detail [artA] [comA] "hello-world" (.post "Ana" "Nice post") 2 99).2
         artA.id).head? =
       some { id := 2, article_id := artA.id, name := "Ana",
              content := "Nice post", created_at := 99 }) :=
  ⟨by decide, by decide,
    comment_listing_order [artA] [comA] "hello-world" artA 2 99 "Ana" "Nice post"
      (by decide) (by decide)⟩

/-- C7: after any successful admin save the stored slugs are pairwise
distinct (the unique constraint rejects collisions) and all non-empty: the
scaffolded form's `InputRequired` validator on `slug` rejects any
submission without one before the hooks run, so every committed row
carries the non-empty operator-supplied slug (which `on_model_change`
leaves unchanged). -/
theorem admin_save_slug_invariant (articles : List Article) (a : Article)
    (db' : List Article)
    (hnodup : (articles.map Article.slug).Nodup)
    (hpre : ∀ b ∈ articles, b.slug ≠ "")
    (hsave : admin_submit_article articles a = some db') :
    (db'.map Article.slug).Nodup ∧ (∀ b ∈ db', b.slug ≠ "") := by
  unfold admin_submit_article at hsave
  by_cases hvalid : article_form_validates a = true
  · rw [if_pos hvalid] at hsave
    have hslug : a.slug ≠ "" := by
      unfold article_form_validates at hvalid
      have h1 := and_true_left hvalid
      have h2 := and_true_right (and_true_left (and_true_left (and_true_left h1)))
      rw [decide_eq_true_eq] at h2
      exact h2
    have hmc : on_model_change a.slug a.title = a.slug := by
      unfold on_model_change
      rw [if_neg (by simp [hslug])]
    unfold insertArticle at hsave
    by_cases hany : articles.any
        (fun b => b.slug = ({ a with slug := on_model_change a.slug a.title } : Article).slug) = true
    · rw [if_pos hany] at hsave
      exact absurd hsave (by simp)
    · rw [if_neg hany] at hsave
      rw [Option.some.injEq] at hsave
      subst hsave
      have hnocoll : ∀ b ∈ articles, ¬(b.slug = on_model_change a.slug a.title) := by
        intro b hb hcoll
        exact hany (List.any_eq_true.mpr ⟨b, hb, by simpa using hcoll⟩)
      refine ⟨?_, ?_⟩
      · rw [List.map_append, List.nodup_append]
        refine ⟨hnodup, by simp, ?_⟩
        intro s hs hmem
        simp only [List.map_cons, List.map_nil, List.mem_singleton] at hmem
        obtain ⟨b, hb, rfl⟩ := List.mem_map.mp hs
        exact hnocoll b hb hmem
      · intro b hb
        rcases List.mem_append.mp hb with hb1 | hb1
        · exact hpre b hb1
        · simp only [List.mem_singleton] at hb1
          subst hb1
          show on_model_change a.slug a.title ≠ ""
          rw [hmc]
          exact hslug
  · rw [if_neg hvalid] at hsave
    exact absurd hsave (by simp)

theorem admin_save_slug_invariant_witness :
    (([artA] : List Article).map Article.slug).Nodup ∧
    (∀ b ∈ ([artA] : List Article), b.slug ≠ "") ∧
    admin_submit_article [artA] artB = some [artA, artB] ∧
    ((([artA, artB] : List Article).map Article.slug).Nodup ∧
     (∀ b ∈ ([artA, artB] : List Article), b.slug ≠ "")) :=
  ⟨by decide, by decide, by decide,
    admin_save_slug_invariant [artA] artB [artA, artB]
      (by decide) (by decide) (by decide)⟩

/-- C8: slug derivation is idempotent — deriving from a derived slug
changes nothing — and it is the identity on any string that is already a
valid slug (lowercase word characters and single hyphens only). -/
theorem slugify_idempotent (title s : String) (hs : isValidSlug s = true) :
    slugify (slugify title) = slugify title ∧ slugify s = s := by
  constructor
  · have h := slugifyList_charset title.data
    show (⟨slugifyList (slugifyList title.data)⟩ : String) = ⟨slugifyList title.data⟩
    rw [slugifyList_fixed _ h.1 h.2]
  · unfold isValidSlug at hs
    have h1 := and_true_left hs
    have h2 := and_true_right hs
    show (⟨slugifyList s.data⟩ : String) = s
    rw [slugifyList_fixed _ h1 h2]

theorem slugify_idempotent_witness :
    isValidSlug "hello-world" = true ∧
    (slugify (slugify "Hello, World!") = slugify "Hello, World!" ∧
     slugify "hello-world" = "hello-world") :=
  ⟨by decide, slugify_idempotent "Hello, World!" "hello-world" (by decide)⟩

end Blog
